import Mathlib

/-!
Shallow embedding of the TFTP packet codec in `src/TFTP.go`.

Bytes are modelled as `Nat` (values below 256 in intended use); byte
sequences as `List Nat`. Go strings are byte sequences, so the
`Filename` and `Mode` fields of `ReadReq` are `List Nat`.

In-memory `bytes.Buffer` writes in Go never return an error, and the
only reader error the modelled payload sources (byte lists) can produce
is end-of-stream, which `Data.MarshalBinary` tolerates; hence the
marshalling operations are total functions returning the produced bytes
(for `Data`, paired with the mutated packet, since the Go method
increments `d.Block` and advances the payload reader).

The unmarshalling methods take a pointer receiver in Go and may mutate
it even on an error path, so they are modelled as state-passing
functions returning the result together with the final receiver value.
The exact `error` values are abstracted to strings matching the Go
`errors.New` messages (the opcode-read failure from `binary.Read` on a
short buffer is abstracted as "unexpected EOF").
-/

set_option maxRecDepth 10000

namespace TFTP

/-- Big-endian encoding of a 16-bit value as two bytes, as produced by
`binary.Write(b, binary.BigEndian, x)` for a `uint16` `x`. -/
def beBytes16 (n : Nat) : List Nat := [n / 256 % 256, n % 256]

/-- The constant `DatagramSize = 516` from src/TFTP.go. -/
def DatagramSize : Nat := 516

/-- The constant `BlockSize = DatagramSize - 4 = 512` from src/TFTP.go. -/
def BlockSize : Nat := DatagramSize - 4

/-- The bytes of the string "octet". -/
def octetBytes : List Nat := [111, 99, 116, 101, 116]

/-- The bytes of the string "OCTET". -/
def octetUpperBytes : List Nat := [79, 67, 84, 69, 84]

/-- The bytes of the string "Octet". -/
def octetTitleBytes : List Nat := [79, 99, 116, 101, 116]

/-- The bytes of the string "netascii". -/
def netasciiBytes : List Nat := [110, 101, 116, 97, 115, 99, 105, 105]

/-- Result of a Go method returning `error`: `ok` for a `nil` error,
`err s` for `errors.New(s)` (or an abstracted io error). -/
inductive Res where
  | ok : Res
  | err : String → Res
deriving DecidableEq, Repr

/-- `bytes.Buffer.ReadString(0)`: reads up to and including the first
0x00 byte, returning the bytes read (terminator included) and the
remaining buffer contents; `none` when no 0x00 byte is present (Go
returns the data read so far together with `io.EOF`, which every caller
in src/TFTP.go turns into an error without using the partial data). -/
def readString0 : List Nat → Option (List Nat × List Nat)
  | [] => none
  | b :: rest =>
    if b = 0 then some ([0], rest)
    else (readString0 rest).map (fun tr => (b :: tr.1, tr.2))

/-- `strings.TrimRight(s, "\x00")`: removes all trailing 0x00 bytes. -/
def trimRightNul (s : List Nat) : List Nat :=
  (s.reverse.dropWhile (fun b => b == 0)).reverse

/-- `strings.ToLower`, modelled byte-wise on ASCII (each byte in 65..90
gets 32 added). For ASCII input this is exactly Go's behaviour; the
codec only compares the result against "octet", and no non-ASCII code
point case-folds onto the ASCII letters of "octet", so the comparison's
verdict agrees with Go on every input. -/
def toLowerAscii (s : List Nat) : List Nat :=
  s.map (fun b => if 65 ≤ b ∧ b ≤ 90 then b + 32 else b)

/-- `ReadReq` from src/TFTP.go: a TFTP Read Request. -/
structure ReadReq where
  Filename : List Nat
  Mode : List Nat
deriving DecidableEq, Repr

/-- `ReadReq.MarshalBinary` from src/TFTP.go: writes big-endian opcode 1,
the filename, a 0x00, the mode (defaulting to "octet" when the `Mode`
field is empty), and a final 0x00. All writes target an in-memory
buffer, so no error path is reachable. -/
def ReadReq.marshalBinary (q : ReadReq) : List Nat :=
  let mode := if q.Mode = [] then octetBytes else q.Mode
  beBytes16 1 ++ q.Filename ++ [0] ++ mode ++ [0]

/-- `ReadReq.UnmarshalBinary` from src/TFTP.go, as a state-passing
function: returns the error result and the final value of the pointer
receiver `q` (the Go method assigns `q.Filename` and `q.Mode` before
some of its validation checks, so the receiver can change on error). -/
def ReadReq.unmarshalBinary (q : ReadReq) (p : List Nat) : Res × ReadReq :=
  match p with
  | b0 :: b1 :: rest =>
    if b0 * 256 + b1 ≠ 1 then (Res.err "invalid RRQ", q)
    else
      match readString0 rest with
      | none => (Res.err "invalid RRQ", q)
      | some (fnRaw, rest1) =>
        let fn := trimRightNul fnRaw
        if fn.length = 0 then
          (Res.err "invalid RRQ: empty filename", { q with Filename := fn })
        else
          match readString0 rest1 with
          | none => (Res.err "invalid RRQ", { q with Filename := fn })
          | some (mdRaw, _rest2) =>
            let md := trimRightNul mdRaw
            if toLowerAscii md ≠ octetBytes then
              (Res.err "only binary transfers supported",
               { q with Filename := fn, Mode := md })
            else (Res.ok, { q with Filename := fn, Mode := md })
  | _ => (Res.err "unexpected EOF", q)

/-- `Data` from src/TFTP.go: block number (a `uint16`, so kept below
2^16 by the operations) and the payload source, modelled as the list of
bytes the `io.Reader` has left to yield. -/
structure Data where
  Block : Nat
  Payload : List Nat
deriving DecidableEq, Repr

/-- `Data.MarshalBinary` from src/TFTP.go: increments `d.Block` (uint16
wraparound), writes big-endian opcode 3 and the new block number, then
`io.CopyN`s up to `BlockSize = 512` bytes from the payload source.
`io.CopyN` returns `io.EOF` when the source is exhausted early, which
the Go code treats as success, and a byte-list source produces no other
error, so the function is total; it returns the datagram and the
mutated packet (new block number, advanced payload reader). -/
def Data.marshalBinary (d : Data) : List Nat × Data :=
  let block := (d.Block + 1) % 65536
  (beBytes16 3 ++ beBytes16 block ++ d.Payload.take BlockSize,
   { Block := block, Payload := d.Payload.drop BlockSize })

/-- `Data.UnmarshalBinary` from src/TFTP.go, state-passing like
`ReadReq.unmarshalBinary`: rejects a datagram shorter than 4 or longer
than `DatagramSize = 516` bytes, then an opcode other than 3, then
stores the big-endian block number and the remaining bytes as payload. -/
def Data.unmarshalBinary (d : Data) (p : List Nat) : Res × Data :=
  if p.length < 4 ∨ p.length > DatagramSize then (Res.err "invalid Data", d)
  else
    match p with
    | b0 :: b1 :: b2 :: b3 :: rest =>
      if b0 * 256 + b1 ≠ 3 then (Res.err "invalid DATA", d)
      else (Res.ok, { Block := b2 * 256 + b3, Payload := rest })
    | _ => (Res.err "invalid Data", d)

/-- Modelled from the spec: `Ack.MarshaBinary` in src/TFTP.go is
truncated mid-function (it writes the opcode and then the method body
ends, with the block-number write and the return missing), so the Ack
encoder is modelled from the spec's words: writes big-endian opcode 4
then the 2-byte block number, a fixed 4-byte output. -/
def Ack.marshalBinary (a : Nat) : List Nat :=
  beBytes16 4 ++ beBytes16 (a % 65536)

/-- Modelled from the spec: no Ack decoder exists in src/TFTP.go; per
the spec it fails unless the length is exactly 4 and the opcode equals
4, and otherwise yields the big-endian block number. -/
def Ack.unmarshalBinary (p : List Nat) : Option Nat :=
  match p with
  | [b0, b1, b2, b3] => if b0 * 256 + b1 = 4 then some (b2 * 256 + b3) else none
  | _ => none

/-- Reading up to a 0x00 byte from `pre ++ 0 :: rest` with no 0x00 in
`pre` yields `pre` plus the terminator, leaving `rest`. -/
theorem readString0_append (pre rest : List Nat) (h : (0 : Nat) ∉ pre) :
    readString0 (pre ++ 0 :: rest) = some (pre ++ [0], rest) := by
  induction pre with
  | nil => simp [readString0]
  | cons b t ih =>
    have hb : b ≠ 0 := fun e => h (by simp [e])
    have ht : (0 : Nat) ∉ t := fun m => h (List.mem_cons_of_mem _ m)
    simp [readString0, hb, ih ht]

/-- Conversely, a successful `readString0` decomposes its input as a
0x00-free prefix, the terminator, and the leftover. -/
theorem readString0_eq_some (s tok r : List Nat) (h : readString0 s = some (tok, r)) :
    ∃ pre, (0 : Nat) ∉ pre ∧ tok = pre ++ [0] ∧ s = pre ++ 0 :: r := by
  induction s generalizing tok r with
  | nil => simp [readString0] at h
  | cons b t ih =>
    by_cases hb : b = 0
    · subst hb
      simp only [readString0, if_true, eq_self_iff_true, Option.some.injEq,
        Prod.mk.injEq] at h
      refine ⟨[], by simp, ?_, ?_⟩
      · simp [← h.1]
      · simp [h.2]
    · simp only [readString0, if_neg hb, Option.map_eq_some'] at h
      obtain ⟨⟨tok0, r0⟩, ht, hf⟩ := h
      simp only [Prod.mk.injEq] at hf
      obtain ⟨pre, hp, htok, hs⟩ := ih tok0 r0 ht
      refine ⟨b :: pre, ?_, ?_, ?_⟩
      · simp only [List.mem_cons, not_or]
        exact ⟨fun e => hb e.symm, hp⟩
      · simp [← hf.1, htok]
      · simp [hs, hf.2]

/-- Trimming trailing 0x00 bytes from `pre ++ [0]` with no 0x00 in
`pre` yields `pre`. -/
theorem trimRightNul_append (pre : List Nat) (h : (0 : Nat) ∉ pre) :
    trimRightNul (pre ++ [0]) = pre := by
  unfold trimRightNul
  rw [List.reverse_append]
  have h1 : ([0] : List Nat).reverse ++ pre.reverse = 0 :: pre.reverse := by simp
  rw [h1, List.dropWhile_cons]
  simp only [beq_self_eq_true, if_true]
  have h2 : pre.reverse.dropWhile (fun b => b == 0) = pre.reverse := by
    cases hrev : pre.reverse with
    | nil => simp
    | cons a t =>
      have ha : a ∈ pre := by
        have : a ∈ pre.reverse := by rw [hrev]; exact List.mem_cons_self _ _
        simpa using this
      have ha0 : a ≠ 0 := fun e => h (e ▸ ha)
      rw [List.dropWhile_cons]
      simp [ha0]
  rw [h2, List.reverse_reverse]

/-- Evaluation of `ReadReq.UnmarshalBinary` on a well-framed request:
opcode 1, a 0x00-free nonempty filename, its terminator, a 0x00-free
mode, its terminator, and arbitrary trailing bytes. The result is `ok`
or the unsupported-mode error depending on the case-folded mode, and in
both cases the receiver's fields have been overwritten. -/
theorem rrq_unmarshal_layout (q0 : ReadReq) (fn md rest : List Nat)
    (hfn : fn ≠ []) (h2 : (0 : Nat) ∉ fn) (h0 : (0 : Nat) ∉ md) :
    ReadReq.unmarshalBinary q0 (0 :: 1 :: (fn ++ 0 :: (md ++ 0 :: rest))) =
      if toLowerAscii md ≠ octetBytes then
        (Res.err "only binary transfers supported", ⟨fn, md⟩)
      else (Res.ok, ⟨fn, md⟩) := by
  obtain ⟨qf, qm⟩ := q0
  simp only [ReadReq.unmarshalBinary]
  rw [readString0_append fn (md ++ 0 :: rest) h2]
  simp only [readString0_append md rest h0, trimRightNul_append fn h2,
    trimRightNul_append md h0]
  norm_num [List.length_eq_zero, hfn]

/-- The encoded form of a `ReadReq`, flattened. -/
theorem rrq_marshal_eq (q : ReadReq) :
    ReadReq.marshalBinary q =
      0 :: 1 :: (q.Filename ++ 0 :: ((if q.Mode = [] then octetBytes else q.Mode) ++ [0])) := by
  by_cases h : q.Mode = [] <;>
    simp [ReadReq.marshalBinary, beBytes16, h]

/-- C8: `ReadReq.MarshalBinary` is total (no validation, no reachable
error path) and produces exactly big-endian opcode 1, the `Filename`
bytes verbatim, one 0x00 byte, the `Mode` bytes (with "octet"
substituted when `Mode` is the empty string), and a final 0x00 byte,
for every `ReadReq`, including those with an empty filename or an
unsupported mode. -/
theorem rrq_encode_layout (q : ReadReq) :
    ReadReq.marshalBinary q =
      0 :: 1 :: (q.Filename ++ 0 :: ((if q.Mode = [] then octetBytes else q.Mode) ++ [0])) :=
  rrq_marshal_eq q

/-- C10: `Data.MarshalBinary` writes block number `(Block + 1) % 2^16`
(the `uint16` increment wraps), the new `Block` field equals that
value, and in particular a packet with `Block = 65535` encodes
successfully with block-number bytes `[0, 0]` on the wire: the 1-based
numbering is not preserved across wraparound. -/
theorem data_encode_block_mod (d : Data) :
    (Data.marshalBinary d).1 =
      0 :: 3 :: (beBytes16 ((d.Block + 1) % 65536) ++ d.Payload.take 512) ∧
    (Data.marshalBinary d).2.Block = (d.Block + 1) % 65536 ∧
    (Data.marshalBinary ⟨65535, d.Payload⟩).1 = 0 :: 3 :: 0 :: 0 :: d.Payload.take 512 := by
  refine ⟨?_, rfl, ?_⟩
  · simp [Data.marshalBinary, beBytes16, BlockSize, DatagramSize]
  · simp [Data.marshalBinary, beBytes16, BlockSize, DatagramSize]

/-- C2: encoding a `Data` packet increments its block counter before
writing it (a first call on a packet with `Block = 0` writes block-number
bytes `[0, 1]`); for `Block = 5` and a 512-byte payload source, encode
returns exactly 516 bytes starting with big-endian opcode 3 and
big-endian block 6, and decoding those bytes yields `Block = 6` and a
512-byte payload. -/
theorem data_encode_block5 (d0 : Data) (pl pl0 : List Nat) (h : pl.length = 512) :
    Data.marshalBinary ⟨5, pl⟩ = (0 :: 3 :: 0 :: 6 :: pl, ⟨6, []⟩) ∧
    (0 :: 3 :: 0 :: 6 :: pl).length = 516 ∧
    Data.unmarshalBinary d0 (0 :: 3 :: 0 :: 6 :: pl) = (Res.ok, ⟨6, pl⟩) ∧
    (Data.marshalBinary ⟨0, pl0⟩).1.take 4 = [0, 3, 0, 1] := by
  refine ⟨?_, by simp [h], ?_, ?_⟩
  · simp [Data.marshalBinary, beBytes16, BlockSize, DatagramSize,
      List.take_of_length_le (le_of_eq h), List.drop_eq_nil_of_le (le_of_eq h)]
  · have hlen : ¬((0 :: 3 :: 0 :: 6 :: pl).length < 4 ∨
        (0 :: 3 :: 0 :: 6 :: pl).length > DatagramSize) := by
      simp [DatagramSize, h]
    unfold Data.unmarshalBinary
    rw [if_neg hlen]
    norm_num
  · simp [Data.marshalBinary, beBytes16, BlockSize, DatagramSize]

/-- C2 witness: the instantiation at the all-zero 512-byte payload. -/
theorem data_encode_block5_witness :
    Data.marshalBinary ⟨5, List.replicate 512 0⟩ =
      (0 :: 3 :: 0 :: 6 :: List.replicate 512 0, ⟨6, []⟩) ∧
    (0 :: 3 :: 0 :: 6 :: List.replicate 512 (0 : Nat)).length = 516 ∧
    Data.unmarshalBinary ⟨0, []⟩ (0 :: 3 :: 0 :: 6 :: List.replicate 512 0) =
      (Res.ok, ⟨6, List.replicate 512 0⟩) ∧
    (Data.marshalBinary ⟨0, []⟩).1.take 4 = [0, 3, 0, 1] :=
  data_encode_block5 ⟨0, []⟩ (List.replicate 512 0) [] (by simp)

/-- C3 counterexample: a payload source offering 513 bytes is not
rejected; `Data.MarshalBinary` succeeds (in Go, `io.CopyN` returns a
`nil` error after copying exactly `BlockSize = 512` bytes), producing a
full 516-byte datagram holding the first 512 bytes, with the remaining
byte left in the source. -/
theorem data_encode_oversize_not_rejected :
    Data.marshalBinary ⟨5, List.replicate 513 1⟩ =
      (0 :: 3 :: 0 :: 6 :: List.replicate 512 1, ⟨6, [1]⟩) := by decide

/-- C3 amended: a `Data` encode whose payload source offers more than
512 bytes succeeds, writing exactly the first 512 bytes of the source
into a 516-byte datagram and leaving the remainder in the source for
subsequent blocks — chunking, with no error and no data loss. -/
theorem data_encode_oversize_chunks (d : Data) (h : 512 < d.Payload.length) :
    (Data.marshalBinary d).1 =
      0 :: 3 :: (beBytes16 ((d.Block + 1) % 65536) ++ d.Payload.take 512) ∧
    (Data.marshalBinary d).2.Payload = d.Payload.drop 512 ∧
    (Data.marshalBinary d).1.length = 516 := by
  refine ⟨?_, ?_, ?_⟩
  · simp [Data.marshalBinary, beBytes16, BlockSize, DatagramSize]
  · simp [Data.marshalBinary, BlockSize, DatagramSize]
  · simp only [Data.marshalBinary, beBytes16, BlockSize, DatagramSize]
    simp [List.length_take]
    omega

/-- C3 amended witness: the instantiation at a 513-byte payload. -/
theorem data_encode_oversize_chunks_witness :
    (Data.marshalBinary ⟨5, List.replicate 513 1⟩).1 =
      0 :: 3 :: (beBytes16 ((5 + 1) % 65536) ++ (List.replicate 513 1).take 512) ∧
    (Data.marshalBinary ⟨5, List.replicate 513 1⟩).2.Payload =
      (List.replicate 513 (1 : Nat)).drop 512 ∧
    (Data.marshalBinary ⟨5, List.replicate 513 1⟩).1.length = 516 :=
  data_encode_oversize_chunks ⟨5, List.replicate 513 1⟩ (by simp)

/-- C5: `Data.UnmarshalBinary` rejects every input whose total length is
below 4 bytes or above 516 bytes, regardless of content, leaving the
packet unchanged. -/
theorem data_decode_length_bounds (d : Data) (p : List Nat)
    (h : p.length < 4 ∨ p.length > 516) :
    Data.unmarshalBinary d p = (Res.err "invalid Data", d) := by
  have h2 : p.length < 4 ∨ p.length > DatagramSize := by simpa [DatagramSize] using h
  unfold Data.unmarshalBinary
  rw [if_pos h2]

/-- C5 witness: a 3-byte input is rejected. -/
theorem data_decode_length_bounds_witness :
    Data.unmarshalBinary ⟨0, []⟩ [1, 2, 3] = (Res.err "invalid Data", ⟨0, []⟩) :=
  data_decode_length_bounds ⟨0, []⟩ [1, 2, 3] (by decide)

/-- C7: a `Data` encode whose payload source is exhausted after fewer
than 512 bytes succeeds and returns a datagram of exactly
`4 + payload length` bytes whose tail is the payload verbatim (no
padding), leaving the source empty. -/
theorem data_encode_short_final (d : Data) (h : d.Payload.length < 512) :
    (Data.marshalBinary d).1.length = 4 + d.Payload.length ∧
    (Data.marshalBinary d).1.drop 4 = d.Payload ∧
    (Data.marshalBinary d).2.Payload = [] := by
  refine ⟨?_, ?_, ?_⟩
  · simp only [Data.marshalBinary, beBytes16, BlockSize, DatagramSize]
    simp [List.length_take]
    omega
  · simp [Data.marshalBinary, beBytes16, BlockSize, DatagramSize,
      List.take_of_length_le (le_of_lt h)]
  · simp [Data.marshalBinary, BlockSize, DatagramSize,
      List.drop_eq_nil_of_le (le_of_lt h)]

/-- C7 witness: a 100-byte source yields a 104-byte datagram. -/
theorem data_encode_short_final_witness :
    (Data.marshalBinary ⟨0, List.replicate 100 7⟩).1.length =
      4 + (List.replicate 100 (7 : Nat)).length ∧
    (Data.marshalBinary ⟨0, List.replicate 100 7⟩).1.drop 4 = List.replicate 100 7 ∧
    (Data.marshalBinary ⟨0, List.replicate 100 7⟩).2.Payload = [] :=
  data_encode_short_final ⟨0, List.replicate 100 7⟩ (by simp)

/-- C1 counterexample: for `r = ⟨"a", "OCTET"⟩` (non-empty filename,
mode in the allowed set) the decode of the encode succeeds but stores
`Mode = "OCTET"` unchanged — the Go code lower-cases only a local copy
for the comparison, never the stored field — so the decoded `Mode` is
not the string "octet". Moreover for the one-NUL-byte filename `"\x00"`
(non-empty as a string) the round trip fails outright. -/
theorem rrq_roundtrip_not_normalized :
    (ReadReq.unmarshalBinary ⟨[], []⟩ (ReadReq.marshalBinary ⟨[97], octetUpperBytes⟩)).1 =
      Res.ok ∧
    (ReadReq.unmarshalBinary ⟨[], []⟩ (ReadReq.marshalBinary ⟨[97], octetUpperBytes⟩)).2.Mode ≠
      octetBytes ∧
    (ReadReq.unmarshalBinary ⟨[], []⟩ (ReadReq.marshalBinary ⟨[0], octetBytes⟩)).1 ≠
      Res.ok := by decide

/-- C1 amended: for every `ReadReq` whose `Filename` is non-empty and
free of 0x00 bytes and whose `Mode` is "octet", "OCTET" or "Octet",
decoding the encoding succeeds and returns the `Filename` and the
`Mode` exactly as they were — the mode is accepted case-insensitively
but stored verbatim, not normalized. -/
theorem rrq_roundtrip_preserves_fields (q0 r : ReadReq)
    (h1 : r.Filename ≠ []) (h2 : (0 : Nat) ∉ r.Filename)
    (h3 : r.Mode = octetBytes ∨ r.Mode = octetUpperBytes ∨ r.Mode = octetTitleBytes) :
    ReadReq.unmarshalBinary q0 (ReadReq.marshalBinary r) = (Res.ok, r) := by
  obtain ⟨fn, md⟩ := r
  dsimp only at h1 h2 h3
  have hmd : md ≠ [] ∧ (0 : Nat) ∉ md ∧ toLowerAscii md = octetBytes := by
    rcases h3 with h | h | h <;> rw [h] <;> exact ⟨by decide, by decide, by decide⟩
  have hm : ReadReq.marshalBinary ⟨fn, md⟩ = 0 :: 1 :: (fn ++ 0 :: (md ++ 0 :: [])) := by
    have he := rrq_marshal_eq ⟨fn, md⟩
    dsimp only at he
    rw [he, if_neg hmd.1]
  rw [hm, rrq_unmarshal_layout q0 fn md [] h1 h2 hmd.2.1,
    if_neg (by simp [hmd.2.2])]

/-- C1 amended witness: the instantiation at `⟨"a", "octet"⟩`. -/
theorem rrq_roundtrip_preserves_fields_witness :
    ReadReq.unmarshalBinary ⟨[], []⟩ (ReadReq.marshalBinary ⟨[97], octetBytes⟩) =
      (Res.ok, ⟨[97], octetBytes⟩) :=
  rrq_roundtrip_preserves_fields ⟨[], []⟩ ⟨[97], octetBytes⟩ (by decide) (by decide)
    (Or.inl rfl)

/-- C4 counterexample: decoding the bytes of a request for file "a"
with mode "netascii" into a zero-valued `ReadReq` fails with the
unsupported-mode error, yet leaves the receiver with `Filename = "a"`
and `Mode = "netascii"` — a partially-populated packet (filled
`Filename`, rejected `Mode`) observable by the caller. -/
theorem rrq_decode_partial_mutation :
    (ReadReq.unmarshalBinary ⟨[], []⟩
        [0, 1, 97, 0, 110, 101, 116, 97, 115, 99, 105, 105, 0]).1 =
      Res.err "only binary transfers supported" ∧
    (ReadReq.unmarshalBinary ⟨[], []⟩
        [0, 1, 97, 0, 110, 101, 116, 97, 115, 99, 105, 105, 0]).2 =
      ⟨[97], netasciiBytes⟩ ∧
    (⟨[97], netasciiBytes⟩ : ReadReq) ≠ ⟨[], []⟩ := by decide

/-- C4 amended: `Data.UnmarshalBinary` does leave the packet completely
unchanged on every error (all its checks precede any field assignment);
it is `ReadReq.UnmarshalBinary` that can return an error with the
receiver already overwritten. -/
theorem data_decode_error_unchanged (d : Data) (p : List Nat)
    (h : (Data.unmarshalBinary d p).1 ≠ Res.ok) :
    (Data.unmarshalBinary d p).2 = d := by
  unfold Data.unmarshalBinary at h ⊢
  by_cases hl : p.length < 4 ∨ p.length > DatagramSize
  · rw [if_pos hl]
  · rw [if_neg hl] at h ⊢
    rcases p with _ | ⟨b0, _ | ⟨b1, _ | ⟨b2, _ | ⟨b3, rest⟩⟩⟩⟩
    · rfl
    · rfl
    · rfl
    · rfl
    · by_cases hc : b0 * 256 + b1 ≠ 3
      · dsimp only
        rw [if_pos hc]
      · dsimp only at h
        rw [if_neg hc] at h
        exact absurd rfl h

/-- C4 amended witness: a 3-byte input fails and the packet is
unchanged. -/
theorem data_decode_error_unchanged_witness :
    (Data.unmarshalBinary ⟨0, []⟩ [0, 0, 0]).2 = ⟨0, []⟩ :=
  data_decode_error_unchanged ⟨0, []⟩ [0, 0, 0] (by decide)

/-- C6: decoding bytes as a `ReadRequest` succeeds exactly when the
input is big-endian opcode 1, then a non-empty 0x00-free filename and
its null terminator, then a mode and its null terminator whose
case-folding equals "octet" (trailing bytes after the second terminator
are ignored); wrong opcode, missing terminator, empty filename, or any
other mode — "netascii" included — is rejected. -/
theorem rrq_decode_ok_iff (q : ReadReq) (p : List Nat) :
    (ReadReq.unmarshalBinary q p).1 = Res.ok ↔
      ∃ fn md rest, p = 0 :: 1 :: (fn ++ 0 :: (md ++ 0 :: rest)) ∧
        fn ≠ [] ∧ (0 : Nat) ∉ fn ∧ (0 : Nat) ∉ md ∧ toLowerAscii md = octetBytes := by
  constructor
  · intro h
    rcases p with _ | ⟨b0, _ | ⟨b1, rest⟩⟩
    · simp [ReadReq.unmarshalBinary] at h
    · simp [ReadReq.unmarshalBinary] at h
    · unfold ReadReq.unmarshalBinary at h
      dsimp only at h
      by_cases hc : b0 * 256 + b1 ≠ 1
      · rw [if_pos hc] at h
        exact absurd h (by simp)
      · rw [if_neg hc] at h
        push_neg at hc
        have hb0 : b0 = 0 := by omega
        have hb1 : b1 = 1 := by omega
        subst hb0
        subst hb1
        cases hr1 : readString0 rest with
        | none =>
          rw [hr1] at h
          exact absurd h (by simp)
        | some pr1 =>
          obtain ⟨fnRaw, rest1⟩ := pr1
          rw [hr1] at h
          dsimp only at h
          by_cases hfe : (trimRightNul fnRaw).length = 0
          · rw [if_pos hfe] at h
            exact absurd h (by simp)
          · rw [if_neg hfe] at h
            cases hr2 : readString0 rest1 with
            | none =>
              rw [hr2] at h
              exact absurd h (by simp)
            | some pr2 =>
              obtain ⟨mdRaw, rest2⟩ := pr2
              rw [hr2] at h
              dsimp only at h
              by_cases hm : toLowerAscii (trimRightNul mdRaw) ≠ octetBytes
              · rw [if_pos hm] at h
                exact absurd h (by simp)
              · push_neg at hm
                obtain ⟨pre1, hp1, htok1, hs1⟩ := readString0_eq_some rest fnRaw rest1 hr1
                obtain ⟨pre2, hp2, htok2, hs2⟩ := readString0_eq_some rest1 mdRaw rest2 hr2
                refine ⟨pre1, pre2, rest2, ?_, ?_, hp1, hp2, ?_⟩
                · rw [hs1, hs2]
                · intro e
                  apply hfe
                  rw [htok1, trimRightNul_append pre1 hp1, e]
                  rfl
                · rw [htok2, trimRightNul_append pre2 hp2] at hm
                  exact hm
  · rintro ⟨fn, md, rest, hp, hfn, h2, h0, hoct⟩
    rw [hp, rrq_unmarshal_layout q fn md rest hfn h2 h0,
      if_neg (by simp [hoct])]

/-- C9: encoding an `Ack` with block 42 yields exactly `[0, 4, 0, 42]`;
decoding that buffer yields block 42; decoding fails (`none`) for every
input whose length is not exactly 4 and for every 4-byte input whose
big-endian opcode is not 4. Both directions are modelled from the spec,
the source's Ack codec being incomplete. -/
theorem ack_roundtrip_and_validation :
    Ack.marshalBinary 42 = [0, 4, 0, 42] ∧
    Ack.unmarshalBinary [0, 4, 0, 42] = some 42 ∧
    (∀ p : List Nat, p.length ≠ 4 → Ack.unmarshalBinary p = none) ∧
    (∀ b0 b1 b2 b3 : Nat, b0 * 256 + b1 ≠ 4 → Ack.unmarshalBinary [b0, b1, b2, b3] = none) := by
  refine ⟨by decide, by decide, ?_, ?_⟩
  · intro p hp
    rcases p with _ | ⟨a, _ | ⟨b, _ | ⟨c, _ | ⟨d, _ | ⟨e, t⟩⟩⟩⟩⟩
    · rfl
    · rfl
    · rfl
    · rfl
    · simp at hp
    · rfl
  · intro b0 b1 b2 b3 h
    simp [Ack.unmarshalBinary, h]

/-- C9 witness: a wrong-length and a wrong-opcode buffer both decode to
`none`. -/
theorem ack_roundtrip_and_validation_witness :
    Ack.unmarshalBinary [1, 2, 3] = none ∧ Ack.unmarshalBinary [0, 1, 0, 42] = none :=
  ⟨ack_roundtrip_and_validation.2.2.1 [1, 2, 3] (by decide),
   ack_roundtrip_and_validation.2.2.2 0 1 0 42 (by decide)⟩

end TFTP
